import Mathlib

/-!
# TicTacTOS: the framebuffer-clearing kernel entry point

A shallow embedding of `src/kernel/main.c`.

* Memory is byte addressed: a state of memory maps every address to the byte
  stored there.  Addresses are natural numbers; the theorems below show that
  the routine never forms an address at or above `2 ^ 32`.
* `struct VGACharacter` is two `char` members, `character` declared first and
  `color` second, so `character` lives at offset 0, `color` at offset 1 and
  the struct is 2 bytes wide.
* The loop counter `i` is an `unsigned long`; its increment is taken modulo
  `2 ^ 32`, the smallest width C allows for that type.  The proofs use of the
  modulus only that it exceeds 1251, so a wider `unsigned long` changes
  nothing.
* The bound `25 * 50` is an `int` constant expression with value 1250; the
  comparison `i < 25 * 50` converts it to `unsigned long`, which keeps the
  value.
* The machine state carries, besides memory and the two locals `buffer` and
  `i`, a ghost list `writes` of the addresses of the cell stores performed so
  far, in program order.  Nothing in the program reads it.
-/

namespace TicTacTOS

/-- Byte-addressed memory: the byte stored at each address. -/
abbrev Mem := Nat → Nat

/-- The record `struct VGACharacter { char character; char color; }`. -/
structure VGACharacter where
  character : Nat
  color : Nat
deriving DecidableEq, Repr

/-- Offset of the member `character` inside `struct VGACharacter`. -/
def OFFSET_character : Nat := 0

/-- Offset of the member `color` inside `struct VGACharacter`. -/
def OFFSET_color : Nat := 1

/-- The value of `sizeof(struct VGACharacter)`: two `char` members. -/
def SIZEOF_VGACharacter : Nat := 2

/-- The modulus of `unsigned long` arithmetic. -/
def ULONG_MOD : Nat := 2 ^ 32

/-- The literal `0xb8000` cast to `struct VGACharacter *` in `kernel_main`. -/
def VGA_BASE : Nat := 0xb8000

/-- The loop bound `25 * 50` of `kernel_main`. -/
def CELL_COUNT : Nat := 25 * 50

/-- Store one byte `v` at address `a`. -/
def writeByte (m : Mem) (a v : Nat) : Mem :=
  fun x => if x = a then v else m x

/-- The struct assignment `*p = c`: both members are stored at their offsets. -/
def storeCell (m : Mem) (p : Nat) (c : VGACharacter) : Mem :=
  writeByte (writeByte m (p + OFFSET_character) c.character) (p + OFFSET_color) c.color

/-- The struct read `*p`. -/
def loadCell (m : Mem) (p : Nat) : VGACharacter :=
  { character := m (p + OFFSET_character), color := m (p + OFFSET_color) }

/-- The element `((struct VGACharacter *)0xb8000)[idx]`. -/
def cellAt (m : Mem) (idx : Nat) : VGACharacter :=
  loadCell m (VGA_BASE + SIZEOF_VGACharacter * idx)

/-- The local `emptyCharacter = { .color = 1, .character = ' ' }`; the
space character has code `0x20`. -/
def emptyCharacter : VGACharacter := { color := 1, character := 0x20 }

/-- Machine state of `kernel_main`: memory, the locals `buffer` and `i`, and
the ghost list of cell-store addresses. -/
structure State where
  mem : Mem
  buffer : Nat
  i : Nat
  writes : List Nat

/-- State on entry to the loop: `buffer = 0xb8000`, `i = 0`, nothing written. -/
def initState (m : Mem) : State :=
  { mem := m, buffer := VGA_BASE, i := 0, writes := [] }

/-- One pass through the loop: `*buffer = emptyCharacter; buffer++;` followed
by the increment `i++`. -/
def loopBody (s : State) : State :=
  { mem := storeCell s.mem s.buffer emptyCharacter
    buffer := s.buffer + SIZEOF_VGACharacter
    i := (s.i + 1) % ULONG_MOD
    writes := s.writes ++ [s.buffer] }

/-- The loop `for (...; i < n; i++) { *buffer = emptyCharacter; buffer++; }`
started in state `s`.  The bound is compared as an `unsigned long`.  The
termination argument is that a counter below the bound cannot wrap. -/
def fillLoop (n : Nat) (s : State) : State :=
  if s.i < n % ULONG_MOD then fillLoop n (loopBody s) else s
termination_by n % ULONG_MOD - s.i
decreasing_by
  have hlt : n % ULONG_MOD < ULONG_MOD := Nat.mod_lt _ (by decide)
  have hstep : (loopBody s).i = s.i + 1 := by
    show (s.i + 1) % ULONG_MOD = s.i + 1
    exact Nat.mod_eq_of_lt (by omega)
  rw [hstep]
  omega

/-- The routine `kernel_main`, as a function from the memory on entry to the
machine state on return. -/
def kernel_main (m : Mem) : State :=
  fillLoop CELL_COUNT (initState m)

/-- The byte addresses covered by the cell stores recorded in `writes`. -/
def writtenBytes (s : State) : List Nat :=
  s.writes.flatMap fun p => [p + OFFSET_character, p + OFFSET_color]

/-- A cell store that is refused, with `none`, unless the two bytes of the
cell lie inside the mapped region `[lo, hi)`. -/
def storeCellChecked (lo hi : Nat) (m : Mem) (p : Nat) (c : VGACharacter) : Option Mem :=
  if lo ≤ p ∧ p + SIZEOF_VGACharacter ≤ hi then some (storeCell m p c) else none

/-- The fill loop with every store checked against `[lo, hi)`: the first
refused store ends the run with `none`. -/
def fillLoopChecked (lo hi n : Nat) (s : State) : Option State :=
  if s.i < n % ULONG_MOD then
    match storeCellChecked lo hi s.mem s.buffer emptyCharacter with
    | none => none
    | some m =>
      fillLoopChecked lo hi n
        { mem := m
          buffer := s.buffer + SIZEOF_VGACharacter
          i := (s.i + 1) % ULONG_MOD
          writes := s.writes ++ [s.buffer] }
  else some s
termination_by n % ULONG_MOD - s.i
decreasing_by
  have hlt : n % ULONG_MOD < ULONG_MOD := Nat.mod_lt _ (by decide)
  have hstep : (s.i + 1) % ULONG_MOD = s.i + 1 := Nat.mod_eq_of_lt (by omega)
  show n % ULONG_MOD - (s.i + 1) % ULONG_MOD < n % ULONG_MOD - s.i
  rw [hstep]
  omega

/-- The routine `kernel_main` over a mapped region `[lo, hi)` with checked
stores. -/
def kernel_main_checked (lo hi : Nat) (m : Mem) : Option State :=
  fillLoopChecked lo hi CELL_COUNT (initState m)

/-- The loop of `fillLoop` cut off after `k` passes: each pass is taken only
if the bound test `i < n` succeeds, so the result is the state in which the
loop started in `s` is after its first `k` passes, or the state in which it
exited when it exits before that. -/
def fillLoopUpTo (n : Nat) : Nat → State → State
  | 0, s => s
  | k + 1, s => if s.i < n % ULONG_MOD then fillLoopUpTo n k (loopBody s) else s

/-- The machine state of `kernel_main`, entered with memory `m`, after `k`
passes through its loop (the exit state once the loop has exited). -/
def stateAfter (m : Mem) (k : Nat) : State :=
  fillLoopUpTo CELL_COUNT k (initState m)

/-- Proof device: the loop body applied `k` times to the entry state, with no
regard to the bound test. -/
def bodyIter (m : Mem) (k : Nat) : State :=
  loopBody^[k] (initState m)

/-! ## The loop body iterated -/

theorem ULONG_MOD_pos : 0 < ULONG_MOD := by decide

theorem loopBody_i (s : State) (h : s.i + 1 < ULONG_MOD) : (loopBody s).i = s.i + 1 := by
  show (s.i + 1) % ULONG_MOD = s.i + 1
  exact Nat.mod_eq_of_lt h

theorem loopBody_buffer (s : State) : (loopBody s).buffer = s.buffer + 2 := rfl

theorem loopBody_writes (s : State) : (loopBody s).writes = s.writes ++ [s.buffer] := rfl

theorem loopBody_mem (s : State) (a : Nat) :
    (loopBody s).mem a =
      if a = s.buffer + 1 then 1 else if a = s.buffer then 0x20 else s.mem a := by
  simp [loopBody, storeCell, writeByte, emptyCharacter, OFFSET_character, OFFSET_color]

theorem iter_i (k : Nat) (s : State) (h : s.i + k < ULONG_MOD) :
    (loopBody^[k] s).i = s.i + k := by
  induction k with
  | zero => rfl
  | succ k ih =>
    rw [Function.iterate_succ_apply', loopBody_i, ih (by omega)]
    · omega
    · rw [ih (by omega)]; omega

theorem iter_buffer (k : Nat) (s : State) : (loopBody^[k] s).buffer = s.buffer + 2 * k := by
  induction k with
  | zero => rfl
  | succ k ih => rw [Function.iterate_succ_apply', loopBody_buffer, ih]; omega

theorem iter_writes (k : Nat) (s : State) :
    (loopBody^[k] s).writes = s.writes ++ (List.range k).map fun j => s.buffer + 2 * j := by
  induction k with
  | zero => simp
  | succ k ih =>
    rw [Function.iterate_succ_apply', loopBody_writes, ih, iter_buffer, List.range_succ]
    simp

theorem iter_mem (k : Nat) (s : State) (a : Nat) :
    (loopBody^[k] s).mem a =
      if s.buffer ≤ a ∧ a < s.buffer + 2 * k then
        (if (a - s.buffer) % 2 = 0 then 0x20 else 1)
      else s.mem a := by
  induction k with
  | zero =>
    rw [if_neg (by omega)]
    rfl
  | succ k ih =>
    rw [Function.iterate_succ_apply', loopBody_mem, iter_buffer, ih]
    split_ifs <;> omega

/-- The loop is the body iterated until the counter meets the bound. -/
theorem fillLoop_eq_iter (n d : Nat) (s : State) (h : s.i + d = n % ULONG_MOD) :
    fillLoop n s = loopBody^[d] s := by
  have hlt : n % ULONG_MOD < ULONG_MOD := Nat.mod_lt _ ULONG_MOD_pos
  induction d generalizing s with
  | zero =>
    rw [fillLoop, if_neg (by omega)]
    rfl
  | succ d ih =>
    rw [fillLoop, if_pos (by omega), Function.iterate_succ_apply]
    apply ih
    rw [loopBody_i s (by omega)]
    omega

theorem CELL_COUNT_mod : CELL_COUNT % ULONG_MOD = 1250 := by decide

theorem kernel_main_eq_iter (m : Mem) : kernel_main m = loopBody^[1250] (initState m) :=
  fillLoop_eq_iter CELL_COUNT 1250 (initState m) (by rw [CELL_COUNT_mod]; rfl)

theorem bodyIter_i (m : Mem) (k : Nat) (hk : k < ULONG_MOD) : (bodyIter m k).i = k := by
  have h := iter_i k (initState m) (by show 0 + k < ULONG_MOD; omega)
  rw [bodyIter, h]
  show 0 + k = k
  omega

theorem bodyIter_buffer (m : Mem) (k : Nat) : (bodyIter m k).buffer = VGA_BASE + 2 * k :=
  iter_buffer k (initState m)

theorem bodyIter_writes (m : Mem) (k : Nat) :
    (bodyIter m k).writes = (List.range k).map fun j => VGA_BASE + 2 * j := by
  rw [bodyIter, iter_writes]
  rfl

theorem bodyIter_mem (m : Mem) (k a : Nat) :
    (bodyIter m k).mem a =
      if VGA_BASE ≤ a ∧ a < VGA_BASE + 2 * k then
        (if (a - VGA_BASE) % 2 = 0 then 0x20 else 1)
      else m a :=
  iter_mem k (initState m) a

theorem kernel_main_eq_bodyIter (m : Mem) : kernel_main m = bodyIter m 1250 :=
  kernel_main_eq_iter m

/-- Resuming the loop after at most 1250 applications of the body to the entry
state ends in the final state of `kernel_main`. -/
theorem fillLoop_bodyIter (m : Mem) (k : Nat) (hk : k ≤ 1250) :
    fillLoop CELL_COUNT (bodyIter m k) = kernel_main m := by
  have hM : (1250 : Nat) < ULONG_MOD := by decide
  rw [fillLoop_eq_iter CELL_COUNT (1250 - k) (bodyIter m k)
        (by rw [bodyIter_i m k (by omega), CELL_COUNT_mod]; omega),
      kernel_main_eq_iter, bodyIter, ← Function.iterate_add_apply]
  congr 2
  omega

theorem kernel_main_mem (m : Mem) (a : Nat) :
    (kernel_main m).mem a =
      if 0xb8000 ≤ a ∧ a < 0xb89c4 then (if (a - 0xb8000) % 2 = 0 then 0x20 else 1)
      else m a := by
  rw [kernel_main_eq_bodyIter, bodyIter_mem]
  simp only [VGA_BASE]

theorem kernel_main_writes (m : Mem) :
    (kernel_main m).writes = (List.range 1250).map fun j => 0xb8000 + 2 * j := by
  rw [kernel_main_eq_bodyIter, bodyIter_writes]
  simp only [VGA_BASE]

theorem mem_writtenBytes_bodyIter (m : Mem) (k a : Nat) :
    a ∈ writtenBytes (bodyIter m k) ↔ 0xb8000 ≤ a ∧ a < 0xb8000 + 2 * k := by
  simp only [writtenBytes, bodyIter_writes, List.mem_flatMap, List.mem_map, List.mem_range,
    OFFSET_character, OFFSET_color, VGA_BASE, List.mem_cons, List.mem_singleton,
    List.not_mem_nil, or_false]
  constructor
  · rintro ⟨p, ⟨j, hj, rfl⟩, h | h⟩ <;> omega
  · intro h
    refine ⟨0xb8000 + 2 * ((a - 0xb8000) / 2), ⟨(a - 0xb8000) / 2, by omega, rfl⟩, ?_⟩
    omega

theorem mem_writtenBytes_kernel_main (m : Mem) (a : Nat) :
    a ∈ writtenBytes (kernel_main m) ↔ 0xb8000 ≤ a ∧ a < 0xb89c4 := by
  rw [kernel_main_eq_bodyIter, mem_writtenBytes_bodyIter]

theorem cellAt_eq (m : Mem) (idx : Nat) :
    cellAt m idx = { character := m (0xb8000 + 2 * idx), color := m (0xb8000 + 2 * idx + 1) } := by
  simp only [cellAt, loadCell, OFFSET_character, OFFSET_color, VGA_BASE, SIZEOF_VGACharacter,
    Nat.add_zero]

theorem cellAt_kernel_main_lt (m : Mem) (idx : Nat) (h : idx < 1250) :
    cellAt (kernel_main m).mem idx = emptyCharacter := by
  have h0 := kernel_main_mem m (0xb8000 + 2 * idx)
  have h1 := kernel_main_mem m (0xb8000 + 2 * idx + 1)
  rw [if_pos (by omega), if_pos (by omega)] at h0
  rw [if_pos (by omega), if_neg (by omega)] at h1
  rw [cellAt_eq, h0, h1, emptyCharacter]

theorem cellAt_kernel_main_ge (m : Mem) (idx : Nat) (h : 1250 ≤ idx) :
    cellAt (kernel_main m).mem idx = cellAt m idx := by
  have h0 := kernel_main_mem m (0xb8000 + 2 * idx)
  have h1 := kernel_main_mem m (0xb8000 + 2 * idx + 1)
  rw [if_neg (by omega)] at h0 h1
  rw [cellAt_eq, cellAt_eq, h0, h1]

theorem fillLoop_step (n : Nat) (s : State) (h : s.i < n % ULONG_MOD) :
    fillLoop n s = fillLoop n (loopBody s) := by
  rw [fillLoop, if_pos h]

theorem fillLoop_done (n : Nat) (s : State) (h : ¬ s.i < n % ULONG_MOD) :
    fillLoop n s = s := by
  rw [fillLoop, if_neg h]

/-- The checked loop succeeds exactly when every cell it is about to store
lies inside the region, and then agrees with the unchecked loop. -/
theorem fillLoopChecked_eq (lo hi n d : Nat) (s : State) (h : s.i + d = n % ULONG_MOD) :
    fillLoopChecked lo hi n s =
      if d = 0 ∨ (lo ≤ s.buffer ∧ s.buffer + 2 * d ≤ hi) then some (fillLoop n s) else none := by
  have hlt : n % ULONG_MOD < ULONG_MOD := Nat.mod_lt _ ULONG_MOD_pos
  induction d generalizing s with
  | zero =>
    rw [fillLoopChecked, if_neg (by omega), fillLoop_done n s (by omega), if_pos (Or.inl rfl)]
  | succ d ih =>
    have hguard : s.i < n % ULONG_MOD := by omega
    rw [fillLoopChecked, if_pos hguard, fillLoop_step n s hguard]
    by_cases hin : lo ≤ s.buffer ∧ s.buffer + SIZEOF_VGACharacter ≤ hi
    · simp only [storeCellChecked, if_pos hin]
      have hrec := ih (loopBody s) (by rw [loopBody_i s (by omega)]; omega)
      rw [loopBody_buffer] at hrec
      have h2 : SIZEOF_VGACharacter = 2 := rfl
      rw [h2] at hin
      show fillLoopChecked lo hi n (loopBody s) = _
      rw [hrec]
      by_cases hd : d = 0
      · rw [if_pos (Or.inl hd), if_pos (Or.inr (by omega))]
      · by_cases hfit : s.buffer + 2 * (d + 1) ≤ hi
        · rw [if_pos (Or.inr (by omega)), if_pos (Or.inr (by omega))]
        · rw [if_neg (by omega), if_neg (by omega)]
    · simp only [storeCellChecked, if_neg hin]
      have h2 : SIZEOF_VGACharacter = 2 := rfl
      rw [h2] at hin
      rw [if_neg (by omega)]

/-- Over a region `[lo, hi)` the checked routine succeeds exactly when the
region contains `[0xb8000, 0xb89c4)`; a smaller region makes it fail. -/
theorem kernel_main_checked_eq (lo hi : Nat) (m : Mem) :
    kernel_main_checked lo hi m =
      if lo ≤ 0xb8000 ∧ 0xb89c4 ≤ hi then some (kernel_main m) else none := by
  have h := fillLoopChecked_eq lo hi CELL_COUNT 1250 (initState m)
    (by rw [CELL_COUNT_mod]; show 0 + 1250 = 1250; omega)
  have hb : (initState m).buffer = 0xb8000 := rfl
  rw [hb] at h
  rw [kernel_main_checked, h, kernel_main]
  by_cases hc : lo ≤ 0xb8000 ∧ 0xb89c4 ≤ hi
  · rw [if_pos (Or.inr (by omega)), if_pos hc]
  · rw [if_neg (by omega), if_neg hc]

/-- The bytes covered by the first `k` cell stores are the `2 * k` bytes from
`0xb8000` upwards, each once, in ascending order. -/
theorem writtenBytes_bodyIter (m : Mem) (k : Nat) :
    writtenBytes (bodyIter m k) = (List.range (2 * k)).map fun j => 0xb8000 + j := by
  induction k with
  | zero => simp [writtenBytes, bodyIter_writes]
  | succ k ih =>
    have hr : List.range (2 * (k + 1)) = List.range (2 * k) ++ [2 * k, 2 * k + 1] := by
      rw [show 2 * (k + 1) = 2 * k + 1 + 1 by omega, List.range_succ, List.range_succ]
      simp
    rw [writtenBytes, bodyIter_writes] at ih
    rw [writtenBytes, bodyIter_writes, List.range_succ, List.map_append, List.flatMap_append,
      ih, hr, List.map_append]
    simp only [List.map_cons, List.map_nil, List.flatMap_cons, List.flatMap_nil,
      List.append_nil, OFFSET_character, OFFSET_color, VGA_BASE, Nat.add_zero, Nat.add_assoc]

theorem writtenBytes_kernel_main (m : Mem) :
    writtenBytes (kernel_main m) = (List.range 2500).map fun j => 0xb8000 + j := by
  rw [kernel_main_eq_bodyIter, writtenBytes_bodyIter]

theorem fillLoopUpTo_succ (n k : Nat) (s : State) :
    fillLoopUpTo n (k + 1) s =
      if s.i < n % ULONG_MOD then fillLoopUpTo n k (loopBody s) else s := rfl

theorem fillLoopUpTo_exit (n k : Nat) (s : State) (h : ¬ s.i < n % ULONG_MOD) :
    fillLoopUpTo n k s = s := by
  cases k with
  | zero => rfl
  | succ k => rw [fillLoopUpTo_succ, if_neg h]

/-- While the counter stays within the bound, `k` passes of the loop are `k`
applications of the body. -/
theorem fillLoopUpTo_eq_iter (n k : Nat) (s : State) (h : s.i + k ≤ n % ULONG_MOD) :
    fillLoopUpTo n k s = loopBody^[k] s := by
  have hlt : n % ULONG_MOD < ULONG_MOD := Nat.mod_lt _ ULONG_MOD_pos
  induction k generalizing s with
  | zero => rfl
  | succ k ih =>
    rw [fillLoopUpTo_succ, if_pos (by omega), Function.iterate_succ_apply]
    apply ih
    rw [loopBody_i s (by omega)]
    omega

/-- Once the loop has exited, allowing further passes changes nothing. -/
theorem fillLoopUpTo_of_ge (n d k : Nat) (s : State) (h : s.i + d = n % ULONG_MOD)
    (hk : d ≤ k) : fillLoopUpTo n k s = fillLoop n s := by
  have hlt : n % ULONG_MOD < ULONG_MOD := Nat.mod_lt _ ULONG_MOD_pos
  induction d generalizing s k with
  | zero => rw [fillLoopUpTo_exit n k s (by omega), fillLoop_done n s (by omega)]
  | succ d ih =>
    cases k with
    | zero => omega
    | succ k =>
      have hg : s.i < n % ULONG_MOD := by omega
      rw [fillLoopUpTo_succ, if_pos hg, fillLoop_step n s hg]
      exact ih k (loopBody s) (by rw [loopBody_i s (by omega)]; omega) (by omega)

theorem stateAfter_eq_bodyIter (m : Mem) (k : Nat) (hk : k ≤ 1250) :
    stateAfter m k = bodyIter m k :=
  fillLoopUpTo_eq_iter CELL_COUNT k (initState m)
    (by rw [CELL_COUNT_mod]; show 0 + k ≤ 1250; omega)

theorem stateAfter_of_ge (m : Mem) (k : Nat) (hk : 1250 ≤ k) :
    stateAfter m k = kernel_main m :=
  fillLoopUpTo_of_ge CELL_COUNT 1250 k (initState m)
    (by rw [CELL_COUNT_mod]; show 0 + 1250 = 1250; omega) hk

theorem stateAfter_succ (m : Mem) (k : Nat) (hk : k < 1250) :
    stateAfter m (k + 1) = loopBody (stateAfter m k) := by
  rw [stateAfter_eq_bodyIter m (k + 1) (by omega), stateAfter_eq_bodyIter m k (by omega)]
  exact Function.iterate_succ_apply' loopBody k (initState m)

theorem stateAfter_mem (m : Mem) (k a : Nat) (hk : k ≤ 1250) :
    (stateAfter m k).mem a =
      if 0xb8000 ≤ a ∧ a < 0xb8000 + 2 * k then (if (a - 0xb8000) % 2 = 0 then 0x20 else 1)
      else m a := by
  rw [stateAfter_eq_bodyIter m k hk, bodyIter_mem]
  simp only [VGA_BASE]

theorem cellAt_stateAfter_lt (m : Mem) (k idx : Nat) (hk : k ≤ 1250) (h : idx < k) :
    cellAt (stateAfter m k).mem idx = emptyCharacter := by
  have h0 := stateAfter_mem m k (0xb8000 + 2 * idx) hk
  have h1 := stateAfter_mem m k (0xb8000 + 2 * idx + 1) hk
  rw [if_pos (by omega), if_pos (by omega)] at h0
  rw [if_pos (by omega), if_neg (by omega)] at h1
  rw [cellAt_eq, h0, h1, emptyCharacter]

theorem cellAt_stateAfter_ge (m : Mem) (k idx : Nat) (hk : k ≤ 1250) (h : k ≤ idx) :
    cellAt (stateAfter m k).mem idx = cellAt m idx := by
  have h0 := stateAfter_mem m k (0xb8000 + 2 * idx) hk
  have h1 := stateAfter_mem m k (0xb8000 + 2 * idx + 1) hk
  rw [if_neg (by omega)] at h0 h1
  rw [cellAt_eq, cellAt_eq, h0, h1]

theorem stateAfter_i (m : Mem) (k : Nat) (hk : k ≤ 1250) : (stateAfter m k).i = k := by
  have hM : (1250 : Nat) < ULONG_MOD := by decide
  rw [stateAfter_eq_bodyIter m k hk, bodyIter_i m k (by omega)]

theorem stateAfter_buffer (m : Mem) (k : Nat) (hk : k ≤ 1250) :
    (stateAfter m k).buffer = 0xb8000 + 2 * k := by
  rw [stateAfter_eq_bodyIter m k hk, bodyIter_buffer]
  simp only [VGA_BASE]

/-- C1: for every initial memory and every cell index below the configured
count `25 * 50`, after `kernel_main` the cell at that index of the array based
at `0xb8000` has character `0x20` (space) and color `1`. -/
theorem kernel_main_fills_every_cell (m : Mem) (idx : Nat) (h : idx < 25 * 50) :
    (cellAt (kernel_main m).mem idx).character = 0x20 ∧
      (cellAt (kernel_main m).mem idx).color = 1 := by
  rw [cellAt_kernel_main_lt m idx (by omega)]
  exact ⟨rfl, rfl⟩

theorem kernel_main_fills_every_cell_witness :
    1249 < 25 * 50 ∧
      (cellAt (kernel_main fun _ => 0xff).mem 1249).character = 0x20 ∧
      (cellAt (kernel_main fun _ => 0xff).mem 1249).color = 1 :=
  ⟨by decide, kernel_main_fills_every_cell (fun _ => 0xff) 1249 (by decide)⟩

/-- C2: `kernel_main` leaves every byte whose address lies outside
`[0xb8000, 0xb8000 + 2 * 1250)` as it was, performs no store to such a byte
(in particular none below `0xb8000`), and leaves every cell of index 1250 or
more with its value from before the call. -/
theorem kernel_main_frame (m : Mem) (a idx : Nat)
    (ha : a < 0xb8000 ∨ 0xb8000 + 2 * 1250 ≤ a) (hidx : 1250 ≤ idx) :
    (kernel_main m).mem a = m a ∧
      a ∉ writtenBytes (kernel_main m) ∧
      cellAt (kernel_main m).mem idx = cellAt m idx := by
  refine ⟨?_, ?_, cellAt_kernel_main_ge m idx hidx⟩
  · rw [kernel_main_mem, if_neg (by omega)]
  · rw [mem_writtenBytes_kernel_main]
    omega

theorem kernel_main_frame_witness :
    (kernel_main fun x => x % 256).mem 0xb7fff = 0xb7fff % 256 ∧
      0xb7fff ∉ writtenBytes (kernel_main fun x => x % 256) ∧
      cellAt (kernel_main fun x => x % 256).mem 1250 = cellAt (fun x => x % 256) 1250 :=
  kernel_main_frame (fun x => x % 256) 0xb7fff 1250 (Or.inl (by decide)) (by decide)

/-- C3: `kernel_main` is idempotent on memory: running it on the memory it
produced yields that same memory. -/
theorem kernel_main_idempotent (m : Mem) :
    (kernel_main (kernel_main m).mem).mem = (kernel_main m).mem := by
  funext a
  rw [kernel_main_mem (kernel_main m).mem a, kernel_main_mem m a]
  split_ifs <;> rfl

/-- C4: byte-level format.  For every cell index below 1250 the byte at
`0xb8000 + 2 * idx` is `0x20` (the character, first) and the byte at
`0xb8000 + 2 * idx + 1` is `0x01` (the color, second); a cell is two bytes
wide, and the bytes stored to are exactly the 2500 bytes from `0xb8000` up to,
not including, `0xb89c4`. -/
theorem kernel_main_byte_layout (m : Mem) (idx : Nat) (h : idx < 1250) :
    (kernel_main m).mem (0xb8000 + 2 * idx) = 0x20 ∧
      (kernel_main m).mem (0xb8000 + 2 * idx + 1) = 0x01 ∧
      SIZEOF_VGACharacter = 2 ∧
      writtenBytes (kernel_main m) = ((List.range 2500).map fun j => 0xb8000 + j) ∧
      0xb8000 + 2500 = 0xb89c4 := by
  refine ⟨?_, ?_, rfl, writtenBytes_kernel_main m, by decide⟩
  · rw [kernel_main_mem, if_pos (by omega), if_pos (by omega)]
  · rw [kernel_main_mem, if_pos (by omega), if_neg (by omega)]

theorem kernel_main_byte_layout_witness :
    (kernel_main fun _ => 0xaa).mem (0xb8000 + 2 * 7) = 0x20 ∧
      (kernel_main fun _ => 0xaa).mem (0xb8000 + 2 * 7 + 1) = 0x01 ∧
      SIZEOF_VGACharacter = 2 ∧
      writtenBytes (kernel_main fun _ => 0xaa) = ((List.range 2500).map fun j => 0xb8000 + j) ∧
      0xb8000 + 2500 = 0xb89c4 :=
  kernel_main_byte_layout (fun _ => 0xaa) 7 (by decide)

/-- C5: with cell count 0 the fill loop never runs its body: from any state
the loop returns that state, so from the entry state the final memory is the
initial memory and no store was performed. -/
theorem fillLoop_zero_count (m : Mem) (s : State) :
    fillLoop 0 s = s ∧
      (fillLoop 0 (initState m)).mem = m ∧
      (fillLoop 0 (initState m)).writes = [] := by
  have h0 : ∀ t : State, fillLoop 0 t = t := fun t =>
    fillLoop_done 0 t (by rw [Nat.zero_mod]; omega)
  refine ⟨h0 s, ?_, ?_⟩ <;> rw [h0] <;> rfl

/-- C6: the configured cell count is `25 * 50 = 1250`, not the `80 * 25 = 2000`
cells of a standard text screen, and a cell with index in `[1250, 2000)` that
is not blank before `kernel_main` is unchanged, hence still not blank, after. -/
theorem kernel_main_not_full_screen (m : Mem) (idx : Nat)
    (hlo : 1250 ≤ idx) (hhi : idx < 2000) (hnb : cellAt m idx ≠ emptyCharacter) :
    CELL_COUNT = 1250 ∧ CELL_COUNT ≠ 80 * 25 ∧ idx < 80 * 25 ∧
      cellAt (kernel_main m).mem idx = cellAt m idx ∧
      cellAt (kernel_main m).mem idx ≠ emptyCharacter := by
  refine ⟨by decide, by decide, by omega, cellAt_kernel_main_ge m idx hlo, ?_⟩
  rw [cellAt_kernel_main_ge m idx hlo]
  exact hnb

theorem kernel_main_not_full_screen_witness :
    CELL_COUNT = 1250 ∧ CELL_COUNT ≠ 80 * 25 ∧ 1999 < 80 * 25 ∧
      cellAt (kernel_main fun _ => 0x41).mem 1999 = cellAt (fun _ => 0x41) 1999 ∧
      cellAt (kernel_main fun _ => 0x41).mem 1999 ≠ emptyCharacter :=
  kernel_main_not_full_screen (fun _ => 0x41) 1999 (by decide) (by decide) (by decide)

/-- C7: two initial memories that agree on every byte outside
`[0xb8000, 0xb8000 + 2500)` give the same final memory: the previous contents
of the filled range do not influence the result. -/
theorem kernel_main_ignores_filled_range (m1 m2 : Mem)
    (h : ∀ a, a < 0xb8000 ∨ 0xb8000 + 2500 ≤ a → m1 a = m2 a) :
    (kernel_main m1).mem = (kernel_main m2).mem := by
  funext a
  rw [kernel_main_mem m1 a, kernel_main_mem m2 a]
  by_cases hin : 0xb8000 ≤ a ∧ a < 0xb89c4
  · rw [if_pos hin, if_pos hin]
  · rw [if_neg hin, if_neg hin]
    exact h a (by omega)

theorem kernel_main_ignores_filled_range_witness :
    (kernel_main fun _ => 0).mem =
      (kernel_main fun a => if 0xb8000 ≤ a ∧ a < 0xb8000 + 2500 then 7 else 0).mem :=
  kernel_main_ignores_filled_range (fun _ => 0)
    (fun a => if 0xb8000 ≤ a ∧ a < 0xb8000 + 2500 then 7 else 0)
    (fun a ha => by
      show 0 = if 0xb8000 ≤ a ∧ a < 0xb8000 + 2500 then 7 else 0
      rw [if_neg (by omega)])

/-- C9: `kernel_main` terminates, after exactly 1250 passes, each of which
performs one cell store.  The run starts in the entry state with counter 0.
Before each pass `k < 1250` the bound test succeeds; the pass is one run of
the body: it raises the counter by exactly one, without wrapping, and stores
the blank cell into cell `k`, which until then held its initial value,
changing memory at the two bytes of that cell and nowhere else.  After
pass 1250 the bound test fails and the loop has exited (allowing any number
of further passes gives the same state, the final state of `kernel_main`),
with counter 1250, the 1250 stores made at the 1250 cells `0, ..., 1249`,
every one of these cells blank in memory, and `buffer = 0xb89c4`. -/
theorem kernel_main_terminates (m : Mem) (k a more : Nat) (hk : k < 1250)
    (ha : a ≠ 0xb8000 + 2 * k ∧ a ≠ 0xb8000 + 2 * k + 1) :
    kernel_main m = stateAfter m 1250 ∧
      stateAfter m (1250 + more) = kernel_main m ∧
      stateAfter m 0 = initState m ∧
      (stateAfter m 0).i = 0 ∧
      (stateAfter m k).i < CELL_COUNT % ULONG_MOD ∧
      (stateAfter m k).i + 1 < ULONG_MOD ∧
      stateAfter m (k + 1) = loopBody (stateAfter m k) ∧
      (stateAfter m (k + 1)).i = (stateAfter m k).i + 1 ∧
      cellAt (stateAfter m k).mem k = cellAt m k ∧
      cellAt (stateAfter m (k + 1)).mem k = emptyCharacter ∧
      (stateAfter m (k + 1)).mem (0xb8000 + 2 * k) = 0x20 ∧
      (stateAfter m (k + 1)).mem (0xb8000 + 2 * k + 1) = 1 ∧
      (stateAfter m (k + 1)).mem a = (stateAfter m k).mem a ∧
      ¬ (kernel_main m).i < CELL_COUNT % ULONG_MOD ∧
      (kernel_main m).i = 1250 ∧
      (kernel_main m).writes = ((List.range 1250).map fun j => 0xb8000 + 2 * j) ∧
      (kernel_main m).writes.length = 1250 ∧
      cellAt (kernel_main m).mem k = emptyCharacter ∧
      (kernel_main m).buffer = 0xb89c4 ∧
      0xb8000 + 2500 = 0xb89c4 := by
  have hM1 : (1251 : Nat) < ULONG_MOD := by decide
  have hfin : stateAfter m 1250 = kernel_main m := stateAfter_of_ge m 1250 (by omega)
  have hi : (kernel_main m).i = 1250 := by
    rw [← hfin, stateAfter_i m 1250 (by omega)]
  have hb : (kernel_main m).buffer = 0xb89c4 := by
    rw [← hfin, stateAfter_buffer m 1250 (by omega)]
  have hik : (stateAfter m k).i = k := stateAfter_i m k (by omega)
  have h0 := stateAfter_mem m (k + 1) (0xb8000 + 2 * k) (by omega)
  have h1 := stateAfter_mem m (k + 1) (0xb8000 + 2 * k + 1) (by omega)
  rw [if_pos (by omega), if_pos (by omega)] at h0
  rw [if_pos (by omega), if_neg (by omega)] at h1
  refine ⟨hfin.symm, stateAfter_of_ge m (1250 + more) (by omega), rfl, rfl, ?_, ?_,
    stateAfter_succ m k hk, ?_, cellAt_stateAfter_ge m k k (by omega) (by omega),
    cellAt_stateAfter_lt m (k + 1) k (by omega) (by omega), h0, h1, ?_, ?_, hi,
    kernel_main_writes m, ?_, cellAt_kernel_main_lt m k hk, hb, by decide⟩
  · rw [hik, CELL_COUNT_mod]
    exact hk
  · rw [hik]
    omega
  · rw [hik, stateAfter_i m (k + 1) (by omega)]
  · rw [stateAfter_mem m (k + 1) a (by omega), stateAfter_mem m k a (by omega)]
    by_cases hin : 0xb8000 ≤ a ∧ a < 0xb8000 + 2 * k
    · rw [if_pos hin, if_pos (by omega)]
    · rw [if_neg hin, if_neg (by omega)]
  · rw [hi, CELL_COUNT_mod]
    omega
  · rw [kernel_main_writes, List.length_map, List.length_range]

theorem kernel_main_terminates_witness :
    kernel_main (fun _ => 0x58) = stateAfter (fun _ => 0x58) 1250 ∧
      stateAfter (fun _ => 0x58) (1250 + 7) = kernel_main (fun _ => 0x58) ∧
      stateAfter (fun _ => 0x58) 0 = initState (fun _ => 0x58) ∧
      (stateAfter (fun _ => 0x58) 0).i = 0 ∧
      (stateAfter (fun _ => 0x58) 1249).i < CELL_COUNT % ULONG_MOD ∧
      (stateAfter (fun _ => 0x58) 1249).i + 1 < ULONG_MOD ∧
      stateAfter (fun _ => 0x58) (1249 + 1) = loopBody (stateAfter (fun _ => 0x58) 1249) ∧
      (stateAfter (fun _ => 0x58) (1249 + 1)).i = (stateAfter (fun _ => 0x58) 1249).i + 1 ∧
      cellAt (stateAfter (fun _ => 0x58) 1249).mem 1249 = cellAt (fun _ => 0x58) 1249 ∧
      cellAt (stateAfter (fun _ => 0x58) (1249 + 1)).mem 1249 = emptyCharacter ∧
      (stateAfter (fun _ => 0x58) (1249 + 1)).mem (0xb8000 + 2 * 1249) = 0x20 ∧
      (stateAfter (fun _ => 0x58) (1249 + 1)).mem (0xb8000 + 2 * 1249 + 1) = 1 ∧
      (stateAfter (fun _ => 0x58) (1249 + 1)).mem 0xb89c4 =
        (stateAfter (fun _ => 0x58) 1249).mem 0xb89c4 ∧
      ¬ (kernel_main fun _ => 0x58).i < CELL_COUNT % ULONG_MOD ∧
      (kernel_main fun _ => 0x58).i = 1250 ∧
      (kernel_main fun _ => 0x58).writes = ((List.range 1250).map fun j => 0xb8000 + 2 * j) ∧
      (kernel_main fun _ => 0x58).writes.length = 1250 ∧
      cellAt (kernel_main fun _ => 0x58).mem 1249 = emptyCharacter ∧
      (kernel_main fun _ => 0x58).buffer = 0xb89c4 ∧
      0xb8000 + 2500 = 0xb89c4 :=
  kernel_main_terminates (fun _ => 0x58) 1249 0xb89c4 7 (by decide) ⟨by decide, by decide⟩

/-- C10: bounds safety for the standard text buffer, the `80 * 25 * 2 = 4000`
bytes `[0xb8000, 0xb8fa0)`.  Every byte `kernel_main` stores to lies in
`[0xb8000, 0xb89c3]`, inside that region; `0xb89c3` is stored to; and the
routine run with every store checked against the region never takes the error
branch: it returns the final state of the unchecked routine. -/
theorem kernel_main_in_bounds (m : Mem) (a : Nat) (ha : a ∈ writtenBytes (kernel_main m)) :
    0xb8000 ≤ a ∧ a ≤ 0xb89c3 ∧ a < 0xb8000 + 80 * 25 * 2 ∧
      0xb8000 + 80 * 25 * 2 = 0xb8fa0 ∧
      0xb89c3 ∈ writtenBytes (kernel_main m) ∧
      kernel_main_checked 0xb8000 (0xb8000 + 80 * 25 * 2) m = some (kernel_main m) := by
  rw [mem_writtenBytes_kernel_main] at ha
  refine ⟨ha.1, by omega, by omega, by decide, ?_, ?_⟩
  · rw [mem_writtenBytes_kernel_main]
    omega
  · rw [kernel_main_checked_eq, if_pos (by omega)]

theorem kernel_main_in_bounds_witness :
    0xb8000 ≤ 0xb8000 ∧ 0xb8000 ≤ 0xb89c3 ∧ 0xb8000 < 0xb8000 + 80 * 25 * 2 ∧
      0xb8000 + 80 * 25 * 2 = 0xb8fa0 ∧
      0xb89c3 ∈ writtenBytes (kernel_main fun _ => 0) ∧
      kernel_main_checked 0xb8000 (0xb8000 + 80 * 25 * 2) (fun _ => 0) =
        some (kernel_main fun _ => 0) :=
  kernel_main_in_bounds (fun _ => 0) 0xb8000
    ((mem_writtenBytes_kernel_main (fun _ => 0) 0xb8000).mpr ⟨by decide, by decide⟩)

end TicTacTOS
